import Mathlib

/-!
Verification of the companion-file resolver of `modules/atom-ide-ui`
(`getRelatedHeaderForSource`, `findSourceFileForHeader`,
`findIncludingSourceFile`, `processGrepResult`, `searchFileWithBasename`,
`getFrameworkStructure`).

The resolver is translated function by function from the JavaScript source.
The path-manipulation library (`nuclideUri`), the file classifiers
(`./utils`) and the process/filesystem collaborators (`fsPromise.readdir`,
`observeProcess`) are not part of the source tree; those are modelled from
the specification, as noted on each definition.
-/

namespace CompanionFiles

/-- The NUL character used by `grep --null` to separate a file name from the
matched line. -/
def nulChar : Char := '\x00'

/-- Character class of the regex token `\s` (whitespace). -/
def isSpaceChar (c : Char) : Bool :=
  c == ' ' || c == '\t' || c == '\n' || c == '\r' || c == '\x0b' || c == '\x0c'

/-- Modelled from the spec: the path library's `split` semantics
("join/normalize/relative/dirname/basename/split semantics consistent with
the host filesystem", `nuclideUri` is not under `src/`).  Splits a character
list on `'/'`; `splitSegs []` is `[[]]`, matching `"".split("/")`. -/
def splitSegs : List Char → List (List Char)
  | [] => [[]]
  | c :: t =>
    if c = '/' then [] :: splitSegs t
    else
      match splitSegs t with
      | s :: rest => (c :: s) :: rest
      | [] => [[c]]

/-- Joins segments with `'/'` (inverse of `splitSegs` on well-formed input). -/
def glueSegs : List (List Char) → List Char
  | [] => []
  | [s] => s
  | s :: rest => s ++ '/' :: glueSegs rest

/-- Modelled from the spec: one step of path normalization (Node-style):
skip empty and `.` segments, let `..` pop the previous segment (clamped at
the root for absolute paths, preserved at the front for relative ones).
The accumulator holds the processed segments in reverse order. -/
def normStep (isAbs : Bool) (stack : List (List Char)) (s : List Char) : List (List Char) :=
  if s = [] ∨ s = ['.'] then stack
  else if s = ['.', '.'] then
    match stack with
    | [] => if isAbs then [] else [['.', '.']]
    | top :: rest => if top = ['.', '.'] then s :: top :: rest else rest
  else s :: stack

/-- Normalized segment sequence of a path. -/
def normSegs (isAbs : Bool) (segs : List (List Char)) : List (List Char) :=
  (segs.foldl (normStep isAbs) []).reverse

/-- Modelled from the spec: `path.normalize` on a character list. -/
def normalizeCh (p : List Char) : List Char :=
  let isAbs := p.head? == some '/'
  let ns := normSegs isAbs (splitSegs p)
  if isAbs then '/' :: glueSegs ns
  else if ns.isEmpty then ['.'] else glueSegs ns

/-- Modelled from the spec: `nuclideUri.normalize` (Node `path.normalize`). -/
def normalizePath (s : String) : String :=
  String.mk (normalizeCh s.toList)

/-- Modelled from the spec: `path.join` over already-split parts — empty
parts are ignored, the rest are glued with `'/'` and normalized;
joining nothing yields `"."`. -/
def joinPartsCh (parts : List (List Char)) : List Char :=
  match parts.filter (fun s => !s.isEmpty) with
  | [] => ['.']
  | ne => normalizeCh (glueSegs ne)

/-- Modelled from the spec: variadic `nuclideUri.join`. -/
def joinMany (parts : List String) : String :=
  String.mk (joinPartsCh (parts.map String.toList))

/-- Modelled from the spec: binary `nuclideUri.join`. -/
def joinPath (a b : String) : String :=
  joinMany [a, b]

/-- `dirname` on a character list: all segments but the last. -/
def dirnameCh (p : List Char) : List Char :=
  match (splitSegs p).dropLast with
  | [] => ['.']
  | [[]] => ['/']
  | ds => glueSegs ds

/-- Modelled from the spec: `nuclideUri.dirname` (Node `path.dirname`). -/
def dirname (s : String) : String :=
  String.mk (dirnameCh s.toList)

/-- `basename` on a character list: the last segment. -/
def baseNameCh (p : List Char) : List Char :=
  (splitSegs p).getLastD []

/-- Modelled from the spec: `nuclideUri.basename` (Node `path.basename`). -/
def basenamePath (s : String) : String :=
  String.mk (baseNameCh s.toList)

/-- Modelled from the spec: `nuclideUri.split`: the list of path segments. -/
def splitPath (s : String) : List String :=
  (splitSegs s.toList).map String.mk

/-- Builds the relative path once the common prefix is gone: one `..` per
remaining segment of the origin, then the remaining target segments. -/
def relTail (fsegs tsegs : List (List Char)) : List Char :=
  glueSegs (List.replicate fsegs.length ['.', '.'] ++ tsegs)

/-- Drops the common segment prefix, then delegates to `relTail`. -/
def relSegs : List (List Char) → List (List Char) → List Char
  | a :: as, b :: bs => if a = b then relSegs as bs else relTail (a :: as) (b :: bs)
  | as, bs => relTail as bs

/-- Modelled from the spec: `nuclideUri.relative` (Node `path.relative`)
as a pure function of the two normalized paths. -/
def relativePath (fromPath toPath : String) : String :=
  String.mk
    (relSegs
      (normSegs (fromPath.toList.head? == some '/') (splitSegs fromPath.toList))
      (normSegs (toPath.toList.head? == some '/') (splitSegs toPath.toList)))

/-- Node-style `extname` of a bare file name: from the last dot, empty for a
leading-dot (hidden) name or a dotless name. -/
def extnameOfBase (b : List Char) : List Char :=
  let rev := b.reverse
  match rev.dropWhile (fun c => c != '.') with
  | [] => []
  | _ :: remaining =>
    if remaining.isEmpty then []
    else '.' :: (rev.takeWhile (fun c => c != '.')).reverse

/-- Modelled from the spec: `nuclideUri.extname` (Node `path.extname`). -/
def extname (s : String) : String :=
  String.mk (extnameOfBase (baseNameCh s.toList))

/-- Modelled from the spec: the header extension table of the Path
Classifier (`./utils` is not under `src/`): ".h"/".hpp" classify as Header. -/
def headerExtensions : List String := [".h", ".hpp"]

/-- Modelled from the spec: the source extension table of the Path
Classifier: ".c"/".cpp"/".m"/".mm" classify as Source. -/
def sourceExtensions : List String := [".c", ".cpp", ".m", ".mm"]

/-- Modelled from the spec: `isHeaderFile` from `./utils` — extension table
lookup. -/
def isHeaderFile (f : String) : Bool :=
  headerExtensions.contains (extname f)

/-- Modelled from the spec: `isSourceFile` from `./utils` — extension table
lookup. -/
def isSourceFile (f : String) : Bool :=
  sourceExtensions.contains (extname f)

/-- Strips the extension computed by `extnameOfBase` from a bare name. -/
def stripExtCh (b : List Char) : List Char :=
  b.take (b.length - (extnameOfBase b).length)

/-- Modelled from the spec: `getFileBasename` from `./utils` — the file's
name with its extension stripped, the matching key between companions. -/
def getFileBasename (f : String) : String :=
  String.mk (stripExtCh (baseNameCh f.toList))

/-- A well-formed directory entry: nonempty, not a dot-link, no slash. -/
def plainSegCh (l : List Char) : Bool :=
  !l.isEmpty && l != ['.'] && l != ['.', '.'] && !l.contains '/'

/-- A well-formed directory entry, as a string. -/
def plainSeg (f : String) : Bool :=
  plainSegCh f.toList

/-- Modelled from the spec: the directory-listing collaborator
(`fsPromise.readdir`): `none` models a rejected listing (unreadable or
missing directory). -/
structure FS where
  readdir : String → Option (List String)

/-- `searchFileWithBasename` from the source: list `dir` (a failed listing
degrades to `[]` via `.catch(() => [])`), return the first entry passing
`condition` whose stripped basename equals `basename`, joined onto `dir`;
otherwise `null`. -/
def searchFileWithBasename (fs : FS) (dir basename : String)
    (condition : String → Bool) : Option String :=
  let files := (fs.readdir dir).getD []
  match files.find? (fun file => condition file && getFileBasename file == basename) with
  | some file => some (joinPath dir file)
  | none => none

/-- JavaScript `Array.prototype.findIndex`, as an `Option Nat`. -/
def jsFindIndex (p : α → Bool) : List α → Option Nat
  | [] => none
  | a :: t => if p a then some 0 else (jsFindIndex p t).map (· + 1)

/-- The record produced by `getFrameworkStructure`. -/
structure FrameworkStructure where
  frameworkPath : String
  frameworkName : String
  frameworkSubFolder : String
deriving DecidableEq

/-- `getFrameworkStructure` from the source: reverse the segments of `dir`,
find the (deepest) `Sources` segment; the framework name is the segment
above `Sources`, the framework path is everything up to and including that
segment, and the subfolder is everything below `Sources`.  (When `Sources`
is the topmost segment the JavaScript `paths[sourcesIndex + 1]` is
`undefined`; that out-of-range read is modelled as `""`.) -/
def getFrameworkStructure (dir : String) : Option FrameworkStructure :=
  let paths := (splitPath dir).reverse
  match jsFindIndex (fun folderName => folderName == "Sources") paths with
  | none => none
  | some sourcesIndex =>
    let frameworkName := (paths.drop (sourcesIndex + 1)).headD ""
    let frameworkPath := joinMany (paths.drop (sourcesIndex + 1)).reverse
    let frameworkSubPaths := paths.take sourcesIndex
    let frameworkSubFolder :=
      if frameworkSubPaths.isEmpty then "" else joinMany frameworkSubPaths.reverse
    some ⟨frameworkPath, frameworkName, frameworkSubFolder⟩

/-- `getRelatedHeaderForSourceFromFramework` from the source: probe
`frameworkPath/<headerFolder>/frameworkName/frameworkSubFolder` for
`Headers` then `PrivateHeaders`, returning the first hit. -/
def getRelatedHeaderForSourceFromFramework (fs : FS) (src : String) : Option String :=
  match getFrameworkStructure (dirname src) with
  | none => none
  | some fw =>
    let basename := getFileBasename src
    let headers := ["Headers", "PrivateHeaders"].map (fun headerFolder =>
      searchFileWithBasename fs
        (joinMany [fw.frameworkPath, headerFolder, fw.frameworkName, fw.frameworkSubFolder])
        basename isHeaderFile)
    (headers.find? Option.isSome).getD none

/-- `getRelatedHeaderForSource` from the source: probe the file's own
directory for a header with the same basename, else fall back to the
framework convention. -/
def getRelatedHeaderForSource (fs : FS) (src : String) : Option String :=
  match searchFileWithBasename fs (dirname src) (getFileBasename src) isHeaderFile with
  | some header => some header
  | none => getRelatedHeaderForSourceFromFramework fs src

/-- Modelled from the spec: a message of the `observeProcess` stream
(stdout line, stderr line, exit event, or a process error converted to an
`error` message by the upstream `.catch`). -/
inductive ProcMessage where
  | stdout (data : String)
  | stderr (data : String)
  | exit
  | error (e : String)
deriving DecidableEq

/-- Checks the regex tail `[">]\s*$`: a closing quote or angle bracket
followed only by whitespace. -/
def closersOk : List Char → Bool
  | q :: rest => (q == '"' || q == '>') && rest.all isSpaceChar
  | [] => false

/-- Checks `base` (the escaped header basename, matched literally) followed
by the closing `[">]\s*$`. -/
def tailMatch (base : List Char) (s : List Char) : Bool :=
  base.isPrefixOf s && closersOk (List.drop base.length s)

/-- Greedy backtracking matcher for `(../)*base[">]\s*$` — the second
alternation branch of the source's include pattern.  An iteration of
`(../)` consumes any two characters and a slash (the dots in the source's
pattern are unescaped).  Returns the iteration count on success. -/
def matchAscents (base : List Char) : List Char → Option Nat
  | a :: b :: c :: t =>
    if c = '/' then
      match matchAscents base t with
      | some k => some (k + 1)
      | none => if tailMatch base (a :: b :: c :: t) then some 0 else none
    else if tailMatch base (a :: b :: c :: t) then some 0 else none
  | s => if tailMatch base s then some 0 else none

/-- `regex.exec` for the pattern built by `findIncludingSourceFile`:
`^\s*#include\s+["<](rel|(../)*base)[">]\s*$` with `rel` and `base`
escaped (hence matched literally).  Returns `(match[1], match[2])`:
the captured path and, when the ascent branch matched with at least one
iteration, its last `(../)` group. -/
def execIncludeRegex (rel base line : String) : Option (String × Option String) :=
  let afterLead := line.toList.dropWhile isSpaceChar
  if ("#include".toList).isPrefixOf afterLead then
    let afterKeyword := afterLead.drop 8
    match afterKeyword.head? with
    | none => none
    | some c =>
      if isSpaceChar c then
        match afterKeyword.dropWhile isSpaceChar with
        | q :: body =>
          if q == '"' || q == '<' then
            if rel.toList.isPrefixOf body && closersOk (body.drop rel.toList.length) then
              some (rel, none)
            else
              match matchAscents base.toList body with
              | none => none
              | some k =>
                some (String.mk (body.take (3 * k + base.toList.length)),
                  if k = 0 then none
                  else some (String.mk ((body.drop (3 * (k - 1))).take 3)))
          else none
        | [] => none
      else none
  else none

/-- `processGrepResult` from the source: split a grep line on NUL into
file name and matched text, require a source-classified file and a pattern
match; a relative-ascent match (`match[2]` non-null) must resolve — joined
onto the file's directory and normalized — to the header exactly. -/
def processGrepResult (result headerFile rel base : String) : Option String :=
  let cs := result.toList
  if nulChar ∈ cs then
    let filename := String.mk (cs.takeWhile (fun c => c != nulChar))
    let rest := String.mk ((cs.dropWhile (fun c => c != nulChar)).drop 1)
    if isSourceFile filename then
      match execIncludeRegex rel base rest with
      | none => none
      | some (m1, m2) =>
        match m2 with
        | some _ =>
          if normalizePath (joinPath (dirname filename) m1) = headerFile then
            some filename
          else none
        | none => some filename
    else none
  else none

/-- Terminal behaviour of the `findIncludingSourceFile` observable:
it emits exactly one value and completes, completes empty, or errors. -/
inductive SearchOutcome where
  | emitted (value : Option String)
  | completedEmpty
  | errored (e : String)
deriving DecidableEq

/-- The `flatMap`/`take(1)` pipeline of `findIncludingSourceFile`, run over
the (finite) message sequence of the grep process: the first accepted
stdout match is emitted and ends the stream; `exit` emits `null`;
an `error` message is rethrown and errors the stream; stderr is ignored. -/
def runIncludeSearch (headerFile rel base : String) : List ProcMessage → SearchOutcome
  | [] => .completedEmpty
  | ProcMessage.stdout d :: rest =>
    match processGrepResult d headerFile rel base with
    | some file => .emitted (some file)
    | none => runIncludeSearch headerFile rel base rest
  | ProcMessage.stderr _ :: rest => runIncludeSearch headerFile rel base rest
  | ProcMessage.exit :: _ => .emitted none
  | ProcMessage.error e :: _ => .errored e

/-- `findIncludingSourceFile` from the source, as a function of the grep
message sequence: the pattern is built from the header's path relative to
the project root and from its basename. -/
def findIncludingSourceFile (headerFile projectRoot : String)
    (msgs : List ProcMessage) : SearchOutcome :=
  runIncludeSearch headerFile
    (relativePath projectRoot headerFile)
    (basenamePath headerFile) msgs

/-- The fallback search deadline from the source (milliseconds). -/
def INCLUDE_SEARCH_TIMEOUT : Nat := 15000

/-- `findSourceFileForHeader` from the source: probe the header's directory
for a same-basename source; else run the include search under a timeout,
with `.catch(() => Observable.of(null))` degrading both a timeout and a
stream error to `null`.  The promise outcome is modelled as `Except`:
`.error` would be a rejection. -/
def findSourceFileForHeader (fs : FS) (header projectRoot : String)
    (msgs : List ProcMessage) (timedOut : Bool) : Except String (Option String) :=
  match searchFileWithBasename fs (dirname header) (getFileBasename header) isSourceFile with
  | some source => Except.ok (some source)
  | none =>
    match
      (if timedOut then SearchOutcome.errored "TimeoutError"
       else findIncludingSourceFile header projectRoot msgs) with
    | SearchOutcome.emitted v => Except.ok v
    | SearchOutcome.completedEmpty => Except.ok none
    | SearchOutcome.errored _ => Except.ok none

/-- A message that produces no emission and no error in the flatMap stage:
a non-matching stdout line or a stderr line. -/
def quietMessage (headerFile rel base : String) (m : ProcMessage) : Bool :=
  match m with
  | ProcMessage.stdout d => (processGrepResult d headerFile rel base).isNone
  | ProcMessage.stderr _ => true
  | ProcMessage.exit => false
  | ProcMessage.error _ => false

/-- Listing fixture: every directory read fails. -/
def fsEmpty : FS := ⟨fun _ => none⟩

/-- Listing fixture for the spec's framework example: the source directory
holds `Foo.m` and the header lives at `Fwk/Headers/Sub/Foo.h`. -/
def fsFwkSpec : FS :=
  ⟨fun d =>
    if d = "Fwk/Sources/Fwk/Sub" then some ["Foo.m"]
    else if d = "Fwk/Headers/Sub" then some ["Foo.h"]
    else none⟩

/-- Listing fixture matching the probe directory the code derives for the
same source file: the header lives at `Fwk/Headers/Fwk/Fwk/Sub/Foo.h`. -/
def fsFwkActual : FS :=
  ⟨fun d =>
    if d = "Fwk/Sources/Fwk/Sub" then some ["Foo.m"]
    else if d = "Fwk/Headers/Fwk/Fwk/Sub" then some ["Foo.h"]
    else none⟩

/-- Listing fixture with two same-basename headers next to `Foo.m`. -/
def fsDup : FS :=
  ⟨fun d => if d = "d" then some ["Foo.hpp", "Foo.h", "Foo.m"] else none⟩

/-- Listing fixture with a unique same-directory header companion. -/
def fsSingle : FS := ⟨fun _ => some ["Foo.h", "Foo.m"]⟩

/-- Listing fixture with another unique same-directory header companion. -/
def fsPlain : FS := ⟨fun _ => some ["Bar.h", "Bar.m"]⟩

/-- Listing fixture with a same-basename header under both the `Headers`
and the `PrivateHeaders` probe directories of the framework layout. -/
def fsBoth : FS :=
  ⟨fun d =>
    if d = "Fwk/Headers/Fwk/Sub" then some ["Foo.h"]
    else if d = "Fwk/PrivateHeaders/Fwk/Sub" then some ["Foo.h"]
    else if d = "Fwk/Sources/Sub" then some ["Foo.m"]
    else none⟩

/-! ### Helper lemmas -/

theorem runIncludeSearch_append (headerFile rel base : String)
    (body tail : List ProcMessage)
    (hq : ∀ m ∈ body, quietMessage headerFile rel base m = true) :
    runIncludeSearch headerFile rel base (body ++ tail) =
      runIncludeSearch headerFile rel base tail := by
  induction body with
  | nil => rfl
  | cons m rest ih =>
    have hm := hq m (List.mem_cons_self m rest)
    have hrest : ∀ x ∈ rest, quietMessage headerFile rel base x = true :=
      fun x hx => hq x (List.mem_cons_of_mem m hx)
    cases m with
    | stdout d =>
      have hnone : processGrepResult d headerFile rel base = none := by
        simpa [quietMessage, Option.isNone_iff_eq_none] using hm
      simpa [runIncludeSearch, hnone] using ih hrest
    | stderr d => simpa [runIncludeSearch] using ih hrest
    | exit => simp [quietMessage] at hm
    | error e => simp [quietMessage] at hm

/-! ### C1: relative includes in the tree search -/

/-- C1 fails on the code: for the header `root/a/b/x.h` the include pattern's
relative branch is `(../)*x\.h` — pure parent ascents followed by the bare
basename — so the line `#include "../../a/b/x.h"` in `root/c/y.m` does not
match at all, and `y.m` is never emitted (the scan ends with `null`). -/
theorem c1_counterexample :
    processGrepResult ("root/c/y.m" ++ "\x00" ++ "#include \"../../a/b/x.h\"")
        "root/a/b/x.h" "a/b/x.h" "x.h" = none
    ∧ findIncludingSourceFile "root/a/b/x.h" "root"
        [ProcMessage.stdout ("root/c/y.m" ++ "\x00" ++ "#include \"../../a/b/x.h\""),
         ProcMessage.exit]
        = SearchOutcome.emitted none := by
  constructor
  · decide
  · decide

/-- C1 (amended): the tree search accepts a relative include only when it is
a sequence of `../` ascents followed by the header's bare filename and it
resolves to the header: for the header `root/a/b/x.h`, the file
`root/a/b/c/y.m` containing `#include "../x.h"` is emitted; the claim's line
`#include "../../a/b/x.h"` and the line `#include "../wrong/x.h"` are both
rejected (never emitted). -/
theorem c1_theorem :
    findIncludingSourceFile "root/a/b/x.h" "root"
        [ProcMessage.stdout ("root/a/b/c/y.m" ++ "\x00" ++ "#include \"../x.h\""),
         ProcMessage.exit]
        = SearchOutcome.emitted (some "root/a/b/c/y.m")
    ∧ findIncludingSourceFile "root/a/b/x.h" "root"
        [ProcMessage.stdout ("root/c/y.m" ++ "\x00" ++ "#include \"../../a/b/x.h\""),
         ProcMessage.exit]
        = SearchOutcome.emitted none
    ∧ findIncludingSourceFile "root/a/b/x.h" "root"
        [ProcMessage.stdout ("root/a/b/c/y.m" ++ "\x00" ++ "#include \"../wrong/x.h\""),
         ProcMessage.exit]
        = SearchOutcome.emitted none := by
  refine ⟨?_, ?_, ?_⟩
  · decide
  · decide
  · decide

/-! ### C2: the framework layout example -/

/-- C2 fails on the code: for the source `Fwk/Sources/Fwk/Sub/Foo.m` the
framework probe directory is
`frameworkPath/Headers/frameworkName/frameworkSubFolder` =
`Fwk/Headers/Fwk/Fwk/Sub` (the framework name is the segment above
`Sources`, and the subfolder keeps every segment below `Sources`), so the
header at `Fwk/Headers/Sub/Foo.h` is never found and the lookup returns
`null`. -/
theorem c2_counterexample :
    getRelatedHeaderForSource fsFwkSpec "Fwk/Sources/Fwk/Sub/Foo.m" = none
    ∧ fsFwkSpec.readdir "Fwk/Headers/Sub" = some ["Foo.h"] := by
  constructor
  · decide
  · decide

/-- C2 (amended): given `Fwk/Sources/Fwk/Sub/Foo.m`, the framework fallback
probes `Fwk/Headers/Fwk/Fwk/Sub` (the framework name is the segment above
`Sources` and the subfolder is every segment below `Sources`), so with the
header at `Fwk/Headers/Fwk/Fwk/Sub/Foo.h` the lookup returns exactly that
header. -/
theorem c2_theorem :
    getRelatedHeaderForSource fsFwkActual "Fwk/Sources/Fwk/Sub/Foo.m"
      = some "Fwk/Headers/Fwk/Fwk/Sub/Foo.h" := by
  decide

/-! ### C3: the same-directory probe -/

/-- C3 fails on the code when two same-directory files are classified Header
with the same stripped basename: with the listing
`["Foo.hpp", "Foo.h", "Foo.m"]` of directory `d`, the file `h = d/Foo.h`
satisfies the claim's premise, yet `getRelatedHeaderForSource "d/Foo.m"`
returns the earlier listing entry `d/Foo.hpp`, not `h`. -/
theorem c3_counterexample :
    isSourceFile "d/Foo.m" = true
    ∧ isHeaderFile "Foo.h" = true
    ∧ getFileBasename "Foo.h" = getFileBasename "d/Foo.m"
    ∧ "Foo.h" ∈ (fsDup.readdir "d").getD []
    ∧ getRelatedHeaderForSource fsDup "d/Foo.m" = some "d/Foo.hpp"
    ∧ some "d/Foo.hpp" ≠ some ("d/Foo.h" : String) := by
  refine ⟨by decide, by decide, by decide, by decide, by decide, by decide⟩

/-- C3 (amended): for every file `f` classified Source and every `h` that is
the first entry of `f`'s directory listing classified Header with
`getFileBasename` equal to `getFileBasename f` (in particular whenever it is
the only such entry), `getRelatedHeaderForSource f` returns `h` joined onto
`f`'s directory. -/
theorem c3_theorem (fs : FS) (f h : String) (files : List String)
    (_hsrcf : isSourceFile f = true)
    (hread : (fs.readdir (dirname f)).getD [] = files)
    (hfind : files.find?
        (fun g => isHeaderFile g && getFileBasename g == getFileBasename f) = some h) :
    getRelatedHeaderForSource fs f = some (joinPath (dirname f) h) := by
  unfold getRelatedHeaderForSource searchFileWithBasename
  rw [hread]
  simp [hfind]

/-- C3 witness: a unique matching header `Foo.h` next to `d/Foo.m` is
returned by the probe. -/
theorem c3_witness :
    getRelatedHeaderForSource fsSingle "d/Foo.m" = some (joinPath (dirname "d/Foo.m") "Foo.h") :=
  c3_theorem fsSingle "d/Foo.m" "Foo.h" ["Foo.h", "Foo.m"] (by decide) (by decide) (by decide)

/-! ### C4: findSourceFileForHeader never rejects on timeout or failure -/

/-- C4: `findSourceFileForHeader` always resolves (never rejects), and when
the same-directory probe finds nothing, both a timeout of the fallback tree
search and an error of the underlying search stream resolve to `null`. -/
theorem c4_theorem (fs : FS) (header projectRoot : String) (msgs : List ProcMessage) :
    (∀ timedOut : Bool,
        ∃ v, findSourceFileForHeader fs header projectRoot msgs timedOut = Except.ok v)
    ∧ (searchFileWithBasename fs (dirname header) (getFileBasename header) isSourceFile = none →
        findSourceFileForHeader fs header projectRoot msgs true = Except.ok none
        ∧ ∀ e, findIncludingSourceFile header projectRoot msgs = SearchOutcome.errored e →
            findSourceFileForHeader fs header projectRoot msgs false = Except.ok none) := by
  constructor
  · intro timedOut
    unfold findSourceFileForHeader
    cases searchFileWithBasename fs (dirname header) (getFileBasename header) isSourceFile with
    | some s => exact ⟨some s, rfl⟩
    | none =>
      cases timedOut with
      | true => exact ⟨none, rfl⟩
      | false =>
        cases h : findIncludingSourceFile header projectRoot msgs with
        | emitted v => exact ⟨v, by simp [h]⟩
        | completedEmpty => exact ⟨none, by simp [h]⟩
        | errored e => exact ⟨none, by simp [h]⟩
  · intro hnone
    constructor
    · unfold findSourceFileForHeader
      rw [hnone]
      rfl
    · intro e he
      unfold findSourceFileForHeader
      rw [hnone]
      simp [he]

/-- C4 witness: with every directory listing failing and the grep stream
erroring out, both the timed-out call and the erroring call resolve to
`null`. -/
theorem c4_witness :
    findSourceFileForHeader fsEmpty "h/x.h" "h" [ProcMessage.error "boom"] true
        = Except.ok none
    ∧ findSourceFileForHeader fsEmpty "h/x.h" "h" [ProcMessage.error "boom"] false
        = Except.ok none := by
  have h := (c4_theorem fsEmpty "h/x.h" "h" [ProcMessage.error "boom"]).2 (by decide)
  exact ⟨h.1, h.2 "boom" (by decide)⟩

/-! ### C5: the observable emits at most one value -/

/-- C5: the include-search observable emits at most one value and then
completes: after any prefix of non-matching scan messages it emits the
first accepted matching file and stops (whatever messages follow), and if
the scan completes (exit) with zero accepted matches it emits `null`
exactly once. -/
theorem c5_theorem (headerFile projectRoot : String) (body tail : List ProcMessage)
    (d f : String)
    (hq : ∀ m ∈ body,
        quietMessage headerFile (relativePath projectRoot headerFile)
          (basenamePath headerFile) m = true) :
    findIncludingSourceFile headerFile projectRoot (body ++ [ProcMessage.exit])
        = SearchOutcome.emitted none
    ∧ (processGrepResult d headerFile (relativePath projectRoot headerFile)
          (basenamePath headerFile) = some f →
        findIncludingSourceFile headerFile projectRoot (body ++ ProcMessage.stdout d :: tail)
          = SearchOutcome.emitted (some f)) := by
  constructor
  · unfold findIncludingSourceFile
    rw [runIncludeSearch_append _ _ _ _ _ hq]
    rfl
  · intro hd
    unfold findIncludingSourceFile
    rw [runIncludeSearch_append _ _ _ _ _ hq]
    simp [runIncludeSearch, hd]

/-- C5 witness: after one non-matching line the scan's exit emits `null`
once; after one non-matching line an accepted match is emitted and the
remaining messages are ignored. -/
theorem c5_witness :
    findIncludingSourceFile "root/a/b/x.h" "root"
        [ProcMessage.stdout "zzz", ProcMessage.exit]
        = SearchOutcome.emitted none
    ∧ findIncludingSourceFile "root/a/b/x.h" "root"
        [ProcMessage.stdout "zzz",
         ProcMessage.stdout ("root/a/b/z.m" ++ "\x00" ++ "#include <a/b/x.h>"),
         ProcMessage.stdout "later", ProcMessage.exit]
        = SearchOutcome.emitted (some "root/a/b/z.m") := by
  have h := c5_theorem "root/a/b/x.h" "root" [ProcMessage.stdout "zzz"]
    [ProcMessage.stdout "later", ProcMessage.exit]
    ("root/a/b/z.m" ++ "\x00" ++ "#include <a/b/x.h>") "root/a/b/z.m" (by decide)
  exact ⟨h.1, h.2 (by decide)⟩

/-! ### C7: Headers beats PrivateHeaders -/

/-- C7: in the framework fallback, whenever the `Headers` probe directory
yields a match, that match is the result — in particular when a matching
header also exists under `PrivateHeaders`, the `Headers` result wins. -/
theorem c7_theorem (fs : FS) (src resHeader resPrivate : String) (fw : FrameworkStructure)
    (hfw : getFrameworkStructure (dirname src) = some fw)
    (hH : searchFileWithBasename fs
        (joinMany [fw.frameworkPath, "Headers", fw.frameworkName, fw.frameworkSubFolder])
        (getFileBasename src) isHeaderFile = some resHeader)
    (_hP : searchFileWithBasename fs
        (joinMany [fw.frameworkPath, "PrivateHeaders", fw.frameworkName, fw.frameworkSubFolder])
        (getFileBasename src) isHeaderFile = some resPrivate) :
    getRelatedHeaderForSourceFromFramework fs src = some resHeader := by
  unfold getRelatedHeaderForSourceFromFramework
  rw [hfw]
  simp [hH, List.find?]

/-- C7 witness: with `Foo.h` present under both
`Fwk/Headers/Fwk/Sub` and `Fwk/PrivateHeaders/Fwk/Sub`, the source
`Fwk/Sources/Sub/Foo.m` resolves to the `Headers` copy. -/
theorem c7_witness :
    getRelatedHeaderForSourceFromFramework fsBoth "Fwk/Sources/Sub/Foo.m"
      = some "Fwk/Headers/Fwk/Sub/Foo.h" :=
  c7_theorem fsBoth "Fwk/Sources/Sub/Foo.m"
    "Fwk/Headers/Fwk/Sub/Foo.h" "Fwk/PrivateHeaders/Fwk/Sub/Foo.h"
    ⟨"Fwk", "Fwk", "Sub"⟩ (by decide) (by decide) (by decide)

/-! ### C8: a failed directory listing is absorbed -/

/-- C8: for every directory, basename and classification filter, a failed
directory listing is treated as zero entries — the probe returns `null`
and no failure is surfaced. -/
theorem c8_theorem (fs : FS) (dir basename : String) (condition : String → Bool)
    (hfail : fs.readdir dir = none) :
    searchFileWithBasename fs dir basename condition = none := by
  unfold searchFileWithBasename
  rw [hfail]
  rfl

/-- C8 witness: the probe over an unreadable directory returns `null`. -/
theorem c8_witness :
    searchFileWithBasename fsEmpty "missing" "Foo" isHeaderFile = none :=
  c8_theorem fsEmpty "missing" "Foo" isHeaderFile rfl

/-! ### C9: the framework subfolder -/

theorem jsFindIndex_append_cons (p : α → Bool) (l₁ l₂ : List α) (x : α)
    (h : ∀ y ∈ l₁, p y = false) (hx : p x = true) :
    jsFindIndex p (l₁ ++ x :: l₂) = some l₁.length := by
  induction l₁ with
  | nil => simp [jsFindIndex, hx]
  | cons a t ih =>
    have ha := h a (List.mem_cons_self a t)
    have ht : ∀ y ∈ t, p y = false := fun y hy => h y (List.mem_cons_of_mem a hy)
    simp [jsFindIndex, ha, ih ht]

/-- C9 fails on the code: for the directory `Fwk/Sources/Name` — directly
under `Sources` with framework-name segment `Name` in the spec's
`Sources/<name>` convention — the computed `frameworkSubFolder` is `"Name"`,
not the empty string: the code keeps every segment below `Sources`,
including the `<name>` segment itself. -/
theorem c9_counterexample :
    (getFrameworkStructure "Fwk/Sources/Name").map FrameworkStructure.frameworkSubFolder
        = some "Name"
    ∧ some ("Name" : String) ≠ some "" := by
  constructor
  · decide
  · decide

/-- C9 (amended): for every directory whose segments are
`pre ++ ["Sources"] ++ post` with no later `Sources` segment, the computed
`frameworkSubFolder` is the joined path of all segments below `Sources` —
including the directory's own final segment — and it is the empty string
exactly when the directory's last segment is `Sources` itself. -/
theorem c9_theorem (dir : String) (pre post : List String)
    (hsplit : splitPath dir = pre ++ "Sources" :: post)
    (hpost : "Sources" ∉ post) :
    (getFrameworkStructure dir).map FrameworkStructure.frameworkSubFolder
      = some (if post.isEmpty then "" else joinMany post) := by
  unfold getFrameworkStructure
  rw [hsplit]
  have hrev : (pre ++ "Sources" :: post).reverse
      = post.reverse ++ "Sources" :: pre.reverse := by
    simp [List.reverse_append]
  rw [hrev]
  have hfi : jsFindIndex (fun folderName => folderName == "Sources")
      (post.reverse ++ "Sources" :: pre.reverse) = some post.reverse.length := by
    refine jsFindIndex_append_cons _ _ _ _ ?_ (by simp)
    intro y hy
    have hyp : y ∈ post := List.mem_reverse.mp hy
    have : y ≠ "Sources" := fun e => hpost (e ▸ hyp)
    simp [this]
  have htake : (post.reverse ++ "Sources" :: pre.reverse).take post.reverse.length
      = post.reverse := List.take_left post.reverse _
  simp only [hfi, htake, Option.map_some']
  congr 1
  by_cases hempty : post.isEmpty
  · simp [List.isEmpty_iff.mp hempty]
  · have : ¬ post.reverse.isEmpty := by
      simp only [List.isEmpty_iff] at hempty ⊢
      simp [hempty]
    simp [this, hempty, List.reverse_reverse]

/-- C9 witness: for `A/Sources/B/C` the subfolder is `B/C`. -/
theorem c9_witness :
    (getFrameworkStructure "A/Sources/B/C").map FrameworkStructure.frameworkSubFolder
      = some "B/C" := by
  have h := c9_theorem "A/Sources/B/C" ["A"] ["B", "C"] (by decide) (by decide)
  rw [h]
  decide

/-! ### C6: projectRoot-relative includes are accepted unconditionally -/

theorem takeWhile_ne_nul (l₁ l₂ : List Char) (h : nulChar ∉ l₁) :
    (l₁ ++ nulChar :: l₂).takeWhile (fun c => c != nulChar) = l₁ := by
  induction l₁ with
  | nil => simp [List.takeWhile_cons]
  | cons a t ih =>
    have ha : a ≠ nulChar := fun e => h (e ▸ List.mem_cons_self a t)
    have ht : nulChar ∉ t := fun hm => h (List.mem_cons_of_mem a hm)
    simp [List.takeWhile_cons, ha, ih ht]

theorem dropWhile_ne_nul (l₁ l₂ : List Char) (h : nulChar ∉ l₁) :
    (l₁ ++ nulChar :: l₂).dropWhile (fun c => c != nulChar) = nulChar :: l₂ := by
  induction l₁ with
  | nil => simp [List.dropWhile_cons]
  | cons a t ih =>
    have ha : a ≠ nulChar := fun e => h (e ▸ List.mem_cons_self a t)
    have ht : nulChar ∉ t := fun hm => h (List.mem_cons_of_mem a hm)
    simp [List.dropWhile_cons, ha, ih ht]

/-- Evaluates `processGrepResult` on a grep line assembled from a file name
(free of NUL), the NUL separator, and a matched line that the include regex
accepts through its projectRoot-relative branch (`match[2]` null). -/
theorem processGrepResult_split (fname lineTail headerFile rel base m1 : String)
    (hn : nulChar ∉ fname.toList)
    (hsrc : isSourceFile fname = true)
    (hexec : execIncludeRegex rel base lineTail = some (m1, none)) :
    processGrepResult (fname ++ "\x00" ++ lineTail) headerFile rel base = some fname := by
  have hdata : (fname ++ "\x00" ++ lineTail).toList
      = fname.toList ++ nulChar :: lineTail.toList := by
    have h0 : "\x00".data = [nulChar] := rfl
    show ((fname ++ "\x00") ++ lineTail).data = fname.data ++ nulChar :: lineTail.data
    rw [String.data_append, String.data_append, h0]
    simp
  unfold processGrepResult
  rw [hdata]
  have hmem : nulChar ∈ fname.toList ++ nulChar :: lineTail.toList := by simp
  rw [if_pos hmem]
  rw [takeWhile_ne_nul _ _ hn, dropWhile_ne_nul _ _ hn]
  have hfn : String.mk fname.toList = fname := rfl
  have hlt : String.mk ((nulChar :: lineTail.toList).drop 1) = lineTail := rfl
  rw [hfn, hlt, if_pos hsrc, hexec]

/-- C6: for the header `root/a/b/x.h` with project root `root`, any
source-classified file whose grep line is `#include <a/b/x.h>` (the
header's path relative to the project root) is accepted and emitted, with
no relative-path resolution and no filesystem validation — the result holds
for every file name, with no filesystem input at all. -/
theorem c6_theorem (filename : String)
    (hsrc : isSourceFile filename = true)
    (hn : nulChar ∉ filename.toList) :
    findIncludingSourceFile "root/a/b/x.h" "root"
        [ProcMessage.stdout (filename ++ "\x00" ++ "#include <a/b/x.h>"), ProcMessage.exit]
        = SearchOutcome.emitted (some filename) := by
  have hrel : relativePath "root" "root/a/b/x.h" = "a/b/x.h" := by decide
  have hbase : basenamePath "root/a/b/x.h" = "x.h" := by decide
  have hexec : execIncludeRegex "a/b/x.h" "x.h" "#include <a/b/x.h>"
      = some ("a/b/x.h", none) := by decide
  have hp := processGrepResult_split filename "#include <a/b/x.h>" "root/a/b/x.h"
    "a/b/x.h" "x.h" "a/b/x.h" hn hsrc hexec
  unfold findIncludingSourceFile
  rw [hrel, hbase]
  simp [runIncludeSearch, hp]

/-- C6 witness: the source file `root/a/b/z.m` carrying the root-relative
include line is emitted. -/
theorem c6_witness :
    isSourceFile "root/a/b/z.m" = true
    ∧ findIncludingSourceFile "root/a/b/x.h" "root"
        [ProcMessage.stdout ("root/a/b/z.m" ++ "\x00" ++ "#include <a/b/x.h>"),
         ProcMessage.exit]
        = SearchOutcome.emitted (some "root/a/b/z.m") :=
  ⟨by decide, c6_theorem "root/a/b/z.m" (by decide) (by decide)⟩

/-! ### C10: results of the probe are genuine header companions -/

theorem splitSegs_ne_nil (l : List Char) : splitSegs l ≠ [] := by
  cases l with
  | nil => simp [splitSegs]
  | cons c t =>
    simp only [splitSegs]
    split
    · simp
    · split <;> simp

theorem splitSegs_no_slash (l : List Char) : ∀ s ∈ splitSegs l, '/' ∉ s := by
  induction l with
  | nil =>
    intro s hs
    simp [splitSegs] at hs
    simp [hs]
  | cons c t ih =>
    intro s hs
    by_cases hc : c = '/'
    · rw [splitSegs, if_pos hc] at hs
      rcases List.mem_cons.mp hs with h1 | h2
      · simp [h1]
      · exact ih s h2
    · rw [splitSegs, if_neg hc] at hs
      cases hsp : splitSegs t with
      | nil => exact absurd hsp (splitSegs_ne_nil t)
      | cons s0 rest =>
        rw [hsp] at hs
        rcases List.mem_cons.mp hs with h1 | h2
        · subst h1
          intro hmem
          rcases List.mem_cons.mp hmem with e | e2
          · exact hc e.symm
          · exact ih s0 (hsp ▸ List.mem_cons_self s0 rest) e2
        · exact ih s (hsp ▸ List.mem_cons_of_mem s0 h2)

theorem splitSegs_append_slash (a b : List Char) :
    splitSegs (a ++ '/' :: b) = splitSegs a ++ splitSegs b := by
  induction a with
  | nil => simp [splitSegs]
  | cons c t ih =>
    by_cases hc : c = '/'
    · rw [List.cons_append, splitSegs, if_pos hc, ih, splitSegs, if_pos hc]
      rfl
    · obtain ⟨s0, rest, hsp⟩ : ∃ s0 rest, splitSegs t = s0 :: rest := by
        cases h : splitSegs t with
        | nil => exact absurd h (splitSegs_ne_nil t)
        | cons s0 rest => exact ⟨s0, rest, rfl⟩
      rw [List.cons_append, splitSegs, if_neg hc, ih, hsp, splitSegs, if_neg hc, hsp]
      rfl

theorem splitSegs_of_no_slash (l : List Char) (h : '/' ∉ l) : splitSegs l = [l] := by
  induction l with
  | nil => rfl
  | cons c t ih =>
    have hc : ¬ c = '/' := by
      rintro rfl
      exact h (List.mem_cons_self _ _)
    have ht : '/' ∉ t := fun hm => h (List.mem_cons_of_mem c hm)
    rw [splitSegs, if_neg hc, ih ht]

theorem glueSegs_pair (s s2 : List Char) (rest : List (List Char)) :
    glueSegs (s :: s2 :: rest) = s ++ '/' :: glueSegs (s2 :: rest) := rfl

theorem splitSegs_glueSegs (segs : List (List Char))
    (hne : segs ≠ []) (hns : ∀ s ∈ segs, '/' ∉ s) :
    splitSegs (glueSegs segs) = segs := by
  induction segs with
  | nil => exact absurd rfl hne
  | cons s rest ih =>
    cases rest with
    | nil => exact splitSegs_of_no_slash s (hns s (List.mem_cons_self s []))
    | cons s2 r2 =>
      rw [glueSegs_pair, splitSegs_append_slash,
        splitSegs_of_no_slash s (hns s (List.mem_cons_self _ _)),
        ih (by simp) (fun x hx => hns x (List.mem_cons_of_mem s hx))]
      rfl

theorem plain_parts (l : List Char) (hf : plainSegCh l = true) :
    l ≠ [] ∧ l ≠ ['.'] ∧ l ≠ ['.', '.'] ∧ '/' ∉ l := by
  unfold plainSegCh at hf
  simp only [Bool.and_eq_true, Bool.not_eq_true', bne_iff_ne, ne_eq] at hf
  obtain ⟨⟨⟨h1, h2⟩, h3⟩, h4⟩ := hf
  refine ⟨?_, h2, h3, ?_⟩
  · intro he
    rw [he] at h1
    simp at h1
  · intro hm
    have hc : l.contains '/' = true := by
      simpa [List.contains] using List.elem_iff.mpr hm
    rw [hc] at h4
    cases h4

theorem normStep_push (ab : Bool) (stack : List (List Char)) (f : List Char)
    (hf : plainSegCh f = true) : normStep ab stack f = f :: stack := by
  obtain ⟨h1, h2, h3, _⟩ := plain_parts f hf
  unfold normStep
  rw [if_neg (by simp [h1, h2]), if_neg h3]

theorem normSegs_append_plain (ab : Bool) (segs : List (List Char)) (f : List Char)
    (hf : plainSegCh f = true) :
    normSegs ab (segs ++ [f]) = normSegs ab segs ++ [f] := by
  unfold normSegs
  rw [List.foldl_append]
  simp only [List.foldl_cons, List.foldl_nil]
  rw [normStep_push ab _ f hf]
  simp

theorem normStep_subset (ab : Bool) (stack : List (List Char)) (x s : List Char)
    (hs : s ∈ normStep ab stack x) : s ∈ stack ∨ s = x ∨ s = ['.', '.'] := by
  unfold normStep at hs
  split at hs
  · exact Or.inl hs
  · split at hs
    · cases stack with
      | nil =>
        simp only at hs
        split at hs
        · simp at hs
        · simp at hs
          exact Or.inr (Or.inr hs)
      | cons top rest =>
        simp only at hs
        split at hs
        · rcases List.mem_cons.mp hs with h | h
          · exact Or.inr (Or.inl h)
          · exact Or.inl h
        · exact Or.inl (List.mem_cons_of_mem top hs)
    · rcases List.mem_cons.mp hs with h | h
      · exact Or.inr (Or.inl h)
      · exact Or.inl h

theorem foldl_normStep_no_slash (ab : Bool) (segs : List (List Char)) :
    ∀ stack : List (List Char), (∀ s ∈ stack, '/' ∉ s) → (∀ s ∈ segs, '/' ∉ s) →
      ∀ s ∈ segs.foldl (normStep ab) stack, '/' ∉ s := by
  induction segs with
  | nil =>
    intro stack hst _ s hs
    exact hst s hs
  | cons x rest ih =>
    intro stack hst hsg s hs
    rw [List.foldl_cons] at hs
    refine ih (normStep ab stack x) ?_ (fun y hy => hsg y (List.mem_cons_of_mem x hy)) s hs
    intro y hy
    rcases normStep_subset ab stack x y hy with h | h | h
    · exact hst y h
    · exact h ▸ hsg x (List.mem_cons_self x rest)
    · subst h
      simp

theorem normSegs_no_slash (ab : Bool) (segs : List (List Char))
    (h : ∀ s ∈ segs, '/' ∉ s) : ∀ s ∈ normSegs ab segs, '/' ∉ s := by
  intro s hs
  rw [normSegs, List.mem_reverse] at hs
  exact foldl_normStep_no_slash ab segs [] (by simp) h s hs

theorem getLastD_append_single (l : List α) (a d : α) : (l ++ [a]).getLastD d = a := by
  induction l generalizing d with
  | nil => rfl
  | cons x t ih =>
    rw [List.cons_append, List.getLastD_cons]
    exact ih x

theorem baseNameCh_of_plain (f : List Char) (hf : plainSegCh f = true) :
    baseNameCh f = f := by
  obtain ⟨-, -, -, h4⟩ := plain_parts f hf
  unfold baseNameCh
  rw [splitSegs_of_no_slash f h4]
  rfl

theorem normalizeCh_plain (fl : List Char) (hf : plainSegCh fl = true) :
    normalizeCh fl = fl := by
  obtain ⟨h1, h2, h3, h4⟩ := plain_parts fl hf
  have habs : (fl.head? == some '/') = false := by
    cases fl with
    | nil => exact absurd rfl h1
    | cons c t =>
      have hc : c ≠ '/' := by
        rintro rfl
        exact h4 (List.mem_cons_self _ _)
      simp [hc]
  have hnorm : normSegs false (splitSegs fl) = [fl] := by
    rw [splitSegs_of_no_slash fl h4]
    unfold normSegs
    simp only [List.foldl_cons, List.foldl_nil]
    rw [normStep_push false [] fl hf]
    rfl
  simp only [normalizeCh]
  rw [habs]
  simp only [Bool.false_eq_true, if_false]
  rw [hnorm]
  rfl

theorem baseNameCh_joinPartsPair (dl fl : List Char) (hf : plainSegCh fl = true) :
    baseNameCh (joinPartsCh [dl, fl]) = fl := by
  obtain ⟨h1, h2, h3, h4⟩ := plain_parts fl hf
  have hfl : fl.isEmpty = false := by
    cases fl with
    | nil => exact absurd rfl h1
    | cons a t => rfl
  by_cases hd : dl = []
  · subst hd
    have hfil : (([] : List Char) :: [fl]).filter (fun s => !s.isEmpty) = [fl] := by
      simp [List.filter, hfl]
    unfold joinPartsCh
    rw [hfil]
    show baseNameCh (normalizeCh fl) = fl
    rw [normalizeCh_plain fl hf]
    exact baseNameCh_of_plain fl hf
  · have hdl : dl.isEmpty = false := by
      cases dl with
      | nil => exact absurd rfl hd
      | cons a t => rfl
    have hfil : (dl :: [fl]).filter (fun s => !s.isEmpty) = [dl, fl] := by
      simp [List.filter, hfl, hdl]
    unfold joinPartsCh
    rw [hfil]
    show baseNameCh (normalizeCh (dl ++ '/' :: fl)) = fl
    have hsp : splitSegs (dl ++ '/' :: fl) = splitSegs dl ++ [fl] := by
      rw [splitSegs_append_slash, splitSegs_of_no_slash fl h4]
    simp only [normalizeCh]
    rw [hsp, normSegs_append_plain _ _ _ hf]
    have hns : ∀ s ∈ normSegs ((dl ++ '/' :: fl).head? == some '/') (splitSegs dl) ++ [fl],
        '/' ∉ s := by
      intro s hs
      rcases List.mem_append.mp hs with h | h
      · exact normSegs_no_slash _ _ (splitSegs_no_slash dl) s h
      · simp at h
        subst h
        exact h4
    split
    · unfold baseNameCh
      have hsp2 : splitSegs
          ('/' :: glueSegs (normSegs ((dl ++ '/' :: fl).head? == some '/') (splitSegs dl) ++ [fl]))
          = [] :: splitSegs
              (glueSegs (normSegs ((dl ++ '/' :: fl).head? == some '/') (splitSegs dl) ++ [fl])) := by
        rw [splitSegs, if_pos rfl]
      rw [hsp2, splitSegs_glueSegs _ (by simp) hns, List.getLastD_cons,
        getLastD_append_single]
    · split
      · rename_i hemp
        exact absurd hemp (by simp)
      · unfold baseNameCh
        rw [splitSegs_glueSegs _ (by simp) hns, getLastD_append_single]

theorem baseNameCh_joinPath (d f : String) (hf : plainSeg f = true) :
    baseNameCh (joinPath d f).toList = f.toList := by
  show baseNameCh (joinPartsCh [d.toList, f.toList]) = f.toList
  exact baseNameCh_joinPartsPair d.toList f.toList hf

theorem isHeaderFile_joinPath (d f : String) (hf : plainSeg f = true) :
    isHeaderFile (joinPath d f) = isHeaderFile f := by
  unfold isHeaderFile extname
  rw [baseNameCh_joinPath d f hf, baseNameCh_of_plain f.toList hf]

theorem getFileBasename_joinPath (d f : String) (hf : plainSeg f = true) :
    getFileBasename (joinPath d f) = getFileBasename f := by
  unfold getFileBasename
  rw [baseNameCh_joinPath d f hf, baseNameCh_of_plain f.toList hf]

/-- A successful directory probe with the `isHeaderFile` filter returns a
path that is itself header-classified with the requested basename, provided
the filesystem only reports well-formed entry names. -/
theorem searchFileWithBasename_header (fs : FS) (dir bn p : String)
    (hfs : ∀ d l, fs.readdir d = some l → ∀ f ∈ l, plainSeg f = true)
    (h : searchFileWithBasename fs dir bn isHeaderFile = some p) :
    isHeaderFile p = true ∧ getFileBasename p = bn := by
  simp only [searchFileWithBasename] at h
  cases hfind : List.find? (fun file => isHeaderFile file && getFileBasename file == bn)
      ((fs.readdir dir).getD []) with
  | none =>
    rw [hfind] at h
    exact absurd h (by simp)
  | some file =>
    rw [hfind] at h
    have hp : p = joinPath dir file := by
      have := h
      simp only [Option.some.injEq] at this
      exact this.symm
    have hpred := List.find?_some hfind
    have hmem := List.mem_of_find?_eq_some hfind
    have hplain : plainSeg file = true := by
      cases hr : fs.readdir dir with
      | none =>
        rw [hr] at hmem
        simp at hmem
      | some l =>
        refine hfs dir l hr file ?_
        rw [hr] at hmem
        simpa using hmem
    rw [Bool.and_eq_true] at hpred
    obtain ⟨hhead, hbn⟩ := hpred
    have hbn2 : getFileBasename file = bn := by simpa using hbn
    subst hp
    constructor
    · rw [isHeaderFile_joinPath dir file hplain]
      exact hhead
    · rw [getFileBasename_joinPath dir file hplain]
      exact hbn2

/-- C10: whenever `getRelatedHeaderForSource` returns a path — via the
same-directory probe or the framework fallback — that path is classified as
a header file and its stripped basename equals the input's, provided the
filesystem reports only well-formed entry names. -/
theorem c10_theorem (fs : FS) (src p : String)
    (hfs : ∀ d l, fs.readdir d = some l → ∀ f ∈ l, plainSeg f = true)
    (hres : getRelatedHeaderForSource fs src = some p) :
    isHeaderFile p = true ∧ getFileBasename p = getFileBasename src := by
  unfold getRelatedHeaderForSource at hres
  cases h1 : searchFileWithBasename fs (dirname src) (getFileBasename src) isHeaderFile with
  | some q =>
    rw [h1] at hres
    have hq : q = p := by simpa using hres
    subst hq
    exact searchFileWithBasename_header fs (dirname src) (getFileBasename src) q hfs h1
  | none =>
    rw [h1] at hres
    unfold getRelatedHeaderForSourceFromFramework at hres
    cases h2 : getFrameworkStructure (dirname src) with
    | none =>
      rw [h2] at hres
      simp at hres
    | some fw =>
      rw [h2] at hres
      simp only [List.map_cons, List.map_nil] at hres
      cases hH : searchFileWithBasename fs
          (joinMany [fw.frameworkPath, "Headers", fw.frameworkName, fw.frameworkSubFolder])
          (getFileBasename src) isHeaderFile with
      | some q =>
        rw [hH] at hres
        simp only [List.find?, Option.isSome_some, Option.getD_some] at hres
        have hq : q = p := by simpa using hres
        subst hq
        exact searchFileWithBasename_header fs _ (getFileBasename src) q hfs hH
      | none =>
        rw [hH] at hres
        simp only [List.find?, Option.isSome_none] at hres
        cases hP : searchFileWithBasename fs
            (joinMany [fw.frameworkPath, "PrivateHeaders", fw.frameworkName, fw.frameworkSubFolder])
            (getFileBasename src) isHeaderFile with
        | some q =>
          rw [hP] at hres
          simp only [Option.isSome_some, Option.getD_some] at hres
          have hq : q = p := by simpa using hres
          subst hq
          exact searchFileWithBasename_header fs _ (getFileBasename src) q hfs hP
        | none =>
          rw [hP] at hres
          simp at hres

/-- C10 witness: with a filesystem whose every listing is
`["Bar.h", "Bar.m"]`, the resolved header `d/Bar.h` is header-classified and
shares its basename with `d/Bar.m`. -/
theorem c10_witness :
    isHeaderFile "d/Bar.h" = true
    ∧ getFileBasename "d/Bar.h" = getFileBasename "d/Bar.m" := by
  refine c10_theorem fsPlain "d/Bar.m" "d/Bar.h" ?_ (by decide)
  intro dd l h f hf
  have hl : l = ["Bar.h", "Bar.m"] :=
    (Option.some.inj (show some ["Bar.h", "Bar.m"] = some l from h)).symm
  subst hl
  simp only [List.mem_cons, List.not_mem_nil, or_false] at hf
  rcases hf with rfl | rfl
  · decide
  · decide

end CompanionFiles
